import Mathlib

/-
Verification development for the mergepath merge pipeline
(`mergepath.go`, current revision).

The program merges source directory trees into a destination tree,
deduplicating by SHA-256 content digest.  We embed, faithfully to the Go
source:

  * the destination-path derivation of `getPathProcessor`
    (`filepath.Join(dstDir, strings.SplitN(path, rootDir, 2)[1])`),
  * the `Copy` transfer function (exclusive create, byte stream,
    partial-file removal),
  * the move-with-copy-fallback branch of `processFile`,
  * the dedup loop of `processFile` over the digest index (leveldb,
    modelled as an association list keyed by digest bytes),
  * Go's `filepath.Walk` driving the walk callback, and
  * the three-goroutine pipeline of `main` as a small transition system.

File-system effects and fallible I/O are modelled with explicit state
passing plus fault oracles: a `CopyEnv` / `MergeOracle` records, for one
operation, which of its I/O steps fail, so that every error path of the
source is reachable in the model.
-/

namespace Mergepath

/-! ## Bytes and errors -/

/-- File contents and digests are byte strings; bytes as `Nat`. -/
abbrev Bytes := List Nat

/-- The error values distinguished by the program's control flow. -/
inductive GoErr where
  | srcNotExist
  | dstExist
  | mkdirFail
  | streamFail
  | closeFail
  | readDirFail
  | lstatFail
deriving DecidableEq, Repr

/-! ## Go string/path primitives used by `getPathProcessor`

`getPathProcessor` derives the destination path as
`filepath.Join(dstDir, strings.SplitN(path, rootDir, 2)[1])`.
We model `strings.SplitN`, `strings.Index` (first occurrence) and
`filepath.Join`/`filepath.Clean` on `List Char`. -/

/-- `leadsWith pre s` : `pre` occurs at the start of `s`. -/
def leadsWith : List Char → List Char → Bool
  | [], _ => true
  | _ :: _, [] => false
  | p :: ps, c :: cs => if p = c then leadsWith ps cs else false

/-- First index at which `sep` occurs in `s` (Go `strings.Index`). -/
def goIndexOf (sep : List Char) : List Char → Option Nat
  | [] => if leadsWith sep [] then some 0 else none
  | c :: t =>
    if leadsWith sep (c :: t) then some 0
    else (goIndexOf sep t).map (· + 1)

/-- Go `strings.SplitN(s, sep, 2)`: split around the first occurrence of
`sep`; with empty `sep`, split off the first character. -/
def goSplitN2 (s sep : List Char) : List (List Char) :=
  if sep = [] then
    match s with
    | [] => []
    | c :: rest => if rest = [] then [[c]] else [[c], rest]
  else
    match goIndexOf sep s with
    | none => [s]
    | some i => [s.take i, s.drop (i + sep.length)]

/-- Split a path on `'/'` (helper for `filepath.Clean`). -/
def splitSlash (cur : List Char) : List Char → List (List Char)
  | [] => [cur.reverse]
  | c :: rest =>
    if c = '/' then cur.reverse :: splitSlash [] rest
    else splitSlash (c :: cur) rest

/-- One step of `filepath.Clean`'s element processing: drop empty and `.`
segments, resolve `..` against the accumulated (reversed) output. -/
def cleanSeg (rooted : Bool) (acc : List (List Char)) (seg : List Char) :
    List (List Char) :=
  if seg = [] ∨ seg = ['.'] then acc
  else if seg = ['.', '.'] then
    match acc with
    | [] => if rooted then [] else [['.', '.']]
    | top :: rest => if top = ['.', '.'] then seg :: acc else rest
  else seg :: acc

/-- Rejoin cleaned segments with `'/'`. -/
def joinSegs : List (List Char) → List Char
  | [] => []
  | [s] => s
  | s :: rest => s ++ '/' :: joinSegs rest

/-- Go `filepath.Clean` (Unix rules). -/
def goClean (s : List Char) : List Char :=
  match s with
  | [] => ['.']
  | c :: _ =>
    let rooted := c = '/'
    let segs := ((splitSlash [] s).foldl (cleanSeg rooted) []).reverse
    let body := joinSegs segs
    if rooted then '/' :: body
    else if body = [] then ['.'] else body

/-- Go `filepath.Join` of two elements: empty elements are dropped, the
rest are joined with `'/'` and cleaned. -/
def goJoin2 (a b : List Char) : List Char :=
  if a = [] then (if b = [] then [] else goClean b)
  else if b = [] then goClean a
  else goClean (a ++ '/' :: b)

/-- `filepath.Join` on `String`s. -/
def goJoinStr (a b : String) : String :=
  String.mk (goJoin2 a.data b.data)

/-- Destination-path derivation of `getPathProcessor`:
`filepath.Join(dstDir, strings.SplitN(path, rootDir, 2)[1])`.
`none` models the index-out-of-range panic that Go raises when `rootDir`
does not occur in `path` (then `SplitN` returns a one-element slice). -/
def dstPathOf (rootDir dstDir path : String) : Option String :=
  ((goSplitN2 path.data rootDir.data).get? 1).map
    (fun rel => String.mk (goJoin2 dstDir.data rel))

/-! Basic lemmas about the split. -/

theorem goIndexOf_of_leadsWith {sep s : List Char}
    (h : leadsWith sep s = true) : goIndexOf sep s = some 0 := by
  cases s with
  | nil => simp [goIndexOf, h]
  | cons c t => simp [goIndexOf, h]

theorem leadsWith_drop {pre s : List Char} (h : leadsWith pre s = true) :
    s = pre ++ s.drop pre.length := by
  induction pre generalizing s with
  | nil => simp
  | cons p ps ih =>
    cases s with
    | nil => simp [leadsWith] at h
    | cons c t =>
      simp only [leadsWith] at h
      by_cases hpc : p = c
      · subst hpc
        simp only [if_pos rfl] at h
        simpa using ih h
      · simp [hpc] at h

theorem goSplitN2_of_leadsWith {s sep : List Char} (hne : sep ≠ [])
    (h : leadsWith sep s = true) :
    goSplitN2 s sep = [[], s.drop sep.length] := by
  simp [goSplitN2, hne, goIndexOf_of_leadsWith h]

/-! ## The file system and `Copy`

The destination/source trees are modelled as a finite map from path to
byte content (an association list).  Directories are implicit: `MkdirAll`
never changes the file map and can only fail, which the fault oracle
records. -/

/-- A snapshot of the file system: path ↦ content. -/
structure GoFS where
  files : List (String × Bytes)
deriving DecidableEq, Repr

/-- Lookup helper on the underlying association list. -/
def fsGetL : List (String × Bytes) → String → Option Bytes
  | [], _ => none
  | e :: t, p => if e.1 = p then some e.2 else fsGetL t p

/-- Remove helper on the underlying association list. -/
def fsRemoveL : List (String × Bytes) → String → List (String × Bytes)
  | [], _ => []
  | e :: t, p => if e.1 = p then fsRemoveL t p else e :: fsRemoveL t p

/-- Content of the file at `p`, if present. -/
def fsGet (fs : GoFS) (p : String) : Option Bytes :=
  fsGetL fs.files p

/-- Write (create or replace) the file at `p`. -/
def fsSet (fs : GoFS) (p : String) (b : Bytes) : GoFS :=
  ⟨(p, b) :: fsRemoveL fs.files p⟩

/-- Delete the file at `p` (`os.Remove`). -/
def fsRemove (fs : GoFS) (p : String) : GoFS :=
  ⟨fsRemoveL fs.files p⟩

theorem fsGetL_removeL (l : List (String × Bytes)) (p q : String) :
    fsGetL (fsRemoveL l q) p = if p = q then none else fsGetL l p := by
  induction l with
  | nil => simp [fsRemoveL, fsGetL]
  | cons e t ih =>
    by_cases h1 : e.1 = q
    · by_cases h2 : p = q
      · subst h2
        simp [fsRemoveL, fsGetL, h1, ih]
      · have h3 : ¬ q = p := fun h => h2 h.symm
        simp [fsRemoveL, fsGetL, h1, h2, h3, ih]
    · by_cases h3 : e.1 = p
      · have h2 : ¬ p = q := by rw [← h3]; exact h1
        simp [fsRemoveL, fsGetL, h1, h2, h3]
      · simp [fsRemoveL, fsGetL, h1, h3, ih]

theorem fsGet_fsSet (fs : GoFS) (q p : String) (b : Bytes) :
    fsGet (fsSet fs q b) p = if p = q then some b else fsGet fs p := by
  show fsGetL ((q, b) :: fsRemoveL fs.files q) p = _
  by_cases h : p = q
  · simp [fsGetL, h]
  · have h2 : ¬ q = p := fun hq => h hq.symm
    simp [fsGetL, h2, fsGetL_removeL, h, fsGet]

theorem fsGet_fsRemove (fs : GoFS) (q p : String) :
    fsGet (fsRemove fs q) p = if p = q then none else fsGet fs p := by
  simp [fsGet, fsRemove, fsGetL_removeL]

/-- Fault oracle for one `Copy` call: which I/O steps fail.
`streamFailAt = some k` means `io.Copy` fails after `k` bytes were
written; `none` means the stream completes.  `mkdirOk`, `closeOk` and
`removeOk` record success of `os.MkdirAll`, `dstFd.Close()` and
`os.Remove`. -/
structure CopyEnv where
  mkdirOk : Bool
  streamFailAt : Option Nat
  closeOk : Bool
  removeOk : Bool
deriving DecidableEq, Repr

/-- The `Copy` function of mergepath, step for step:
open the source (fails if absent), `MkdirAll` the parent, open the
destination with `O_CREATE|O_EXCL` (fails if it exists; on success the
file now exists, initially empty), `io.Copy`, `Close`, and on a stream
error remove the partial file — unless `Close` itself failed, in which
case the code returns early and never reaches the removal; a removal
failure is silently ignored. -/
def Copy (env : CopyEnv) (fs : GoFS) (src dst : String) :
    GoFS × Option GoErr :=
  match fsGet fs src with
  | none => (fs, some GoErr.srcNotExist)
  | some content =>
    if env.mkdirOk = false then (fs, some GoErr.mkdirFail)
    else if (fsGet fs dst).isSome then (fs, some GoErr.dstExist)
    else
      match env.streamFailAt with
      | some k =>
        let fs1 := fsSet fs dst (content.take k)
        if env.closeOk = false then (fs1, some GoErr.streamFail)
        else if env.removeOk then (fsRemove fs1 dst, some GoErr.streamFail)
        else (fs1, some GoErr.streamFail)
      | none =>
        let fs1 := fsSet fs dst content
        if env.closeOk = false then (fs1, some GoErr.closeFail)
        else (fs1, none)

/-- `Copy` never touches the source entry: its content is the same in the
resulting file system. -/
theorem Copy_preserves_src (env : CopyEnv) (fs : GoFS) (src dst : String) :
    fsGet (Copy env fs src dst).1 src = fsGet fs src := by
  cases hsrc : fsGet fs src with
  | none => simp [Copy, hsrc]
  | some content =>
    by_cases hm : env.mkdirOk = false
    · simp [Copy, hsrc, hm]
    · by_cases hdst : (fsGet fs dst).isSome
      · simp [Copy, hsrc, hm, hdst]
      · have hne : src ≠ dst := fun h => hdst (by rw [← h, hsrc]; rfl)
        cases hsf : env.streamFailAt with
        | some k =>
          by_cases hc : env.closeOk = false
          · simp [Copy, hsrc, hm, hdst, hsf, hc, fsGet_fsSet, hne]
          · cases hr : env.removeOk <;>
              simp [Copy, hsrc, hm, hdst, hsf, hc, hr, fsGet_fsSet,
                fsGet_fsRemove, hne]
        | none =>
          by_cases hc : env.closeOk = false <;>
            simp [Copy, hsrc, hm, hdst, hsf, hc, fsGet_fsSet, hne]

/-- `Copy` succeeds only if the source existed. -/
theorem Copy_ok_src_exists {env : CopyEnv} {fs : GoFS} {src dst : String}
    (h : (Copy env fs src dst).2 = none) : (fsGet fs src).isSome := by
  cases hsrc : fsGet fs src with
  | none => simp [Copy, hsrc] at h
  | some content => simp

/-! ## The Merge Engine (`processFile`)

`processFile` consumes fingerprinted items, consults the leveldb index
(modelled as an association list from digest bytes to the recorded source
path), and transfers new content.  `MergeOracle` is the per-item fault
oracle: `dbErr` makes `dbh.Get` return an error other than
`db.ErrNotFound`; `mkdirOk`/`renameOk` govern the move branch's
`os.MkdirAll` and `os.Rename`; `copyEnv` governs the `Copy` call. -/

/-- The `fileEntry` struct: the Walker fills `srcPath`/`dstPath`, the
Fingerprinter fills `csum` (empty before hashing, like the Go nil
slice). -/
structure fileEntry where
  srcPath : String
  dstPath : String
  csum : Bytes
deriving DecidableEq, Repr

/-- Per-item fault oracle for the Merge Engine. -/
structure MergeOracle where
  dbErr : Bool
  mkdirOk : Bool
  renameOk : Bool
  copyEnv : CopyEnv
deriving DecidableEq, Repr

/-- `dbh.Get`: `some` is a hit, `none` is `db.ErrNotFound`. -/
def lookupIndex : List (Bytes × String) → Bytes → Option String
  | [], _ => none
  | e :: t, d => if e.1 = d then some e.2 else lookupIndex t d

/-- `os.Rename`: succeeds (oracle permitting) when the source exists;
the source entry moves to the destination path. -/
def goRename (ok : Bool) (fs : GoFS) (src dst : String) : Option GoFS :=
  if ok then
    match fsGet fs src with
    | some c => some (fsSet (fsRemove fs src) dst c)
    | none => none
  else none

/-- The move branch of `processFile`: `MkdirAll`, then `Rename`, and on a
rename failure fall back to `Copy`. -/
def transferMove (o : MergeOracle) (fs : GoFS) (src dst : String) :
    GoFS × Option GoErr :=
  if o.mkdirOk = false then (fs, some GoErr.mkdirFail)
  else
    match goRename o.renameOk fs src dst with
    | some fs' => (fs', none)
    | none => Copy o.copyEnv fs src dst

/-- The transfer performed for one new item (move or copy mode). -/
def transferStep (move : Bool) (o : MergeOracle) (fs : GoFS)
    (f : fileEntry) : GoFS × Option GoErr :=
  if move then transferMove o fs f.srcPath f.dstPath
  else Copy o.copyEnv fs f.srcPath f.dstPath

/-- Engine state: the destination/source file systems (one map) and the
digest index. -/
structure EngineState where
  fs : GoFS
  index : List (Bytes × String)
deriving DecidableEq, Repr

/-- One loop iteration of `processFile`:
lookup failure (other than not-found) skips the item; a hit skips the
item; on not-found the transfer runs and `digest → srcPath` is recorded
only when it succeeded. -/
def processOne (move : Bool) (o : MergeOracle) (st : EngineState)
    (f : fileEntry) : EngineState :=
  if o.dbErr then st
  else
    match lookupIndex st.index f.csum with
    | some _ => st
    | none =>
      match transferStep move o st.fs f with
      | (fs', some _) => ⟨fs', st.index⟩
      | (fs', none) => ⟨fs', (f.csum, f.srcPath) :: st.index⟩

/-- The whole `processFile` loop over the queued items (strict FIFO). -/
def runEngine (move : Bool) (st : EngineState) :
    List (fileEntry × MergeOracle) → EngineState
  | [] => st
  | (f, o) :: rest => runEngine move (processOne move o st f) rest

/-- Whether the `processFile` iteration for `f` performs a transfer that
succeeds: honest lookup, digest not yet recorded, transfer returns no
error. -/
def stepSucceeds (move : Bool) (o : MergeOracle) (st : EngineState)
    (f : fileEntry) : Bool :=
  !o.dbErr && (lookupIndex st.index f.csum).isNone
    && (transferStep move o st.fs f).2.isNone

/-- The successfully transferred items of a run, in order. -/
def successes (move : Bool) (st : EngineState) :
    List (fileEntry × MergeOracle) → List fileEntry
  | [] => []
  | (f, o) :: rest =>
    if stepSucceeds move o st f
    then f :: successes move (processOne move o st f) rest
    else successes move (processOne move o st f) rest

/-- The index entry recorded for a successful transfer
(`dbh.Set(fent.csum, []byte(fent.srcPath), nil)`). -/
def idxEntry (f : fileEntry) : Bytes × String := (f.csum, f.srcPath)

theorem processOne_index (move : Bool) (o : MergeOracle) (st : EngineState)
    (f : fileEntry) :
    (processOne move o st f).index =
      if stepSucceeds move o st f then idxEntry f :: st.index
      else st.index := by
  unfold processOne stepSucceeds
  cases hdb : o.dbErr with
  | true => simp
  | false =>
    cases hlk : lookupIndex st.index f.csum with
    | some v => simp [hlk]
    | none =>
      cases hts : transferStep move o st.fs f with
      | mk fs' err =>
        cases err with
        | some e => simp [hlk, hts, idxEntry]
        | none => simp [hlk, hts, idxEntry]

theorem lookupIndex_mono_processOne (move : Bool) (o : MergeOracle)
    (st : EngineState) (f : fileEntry) {d : Bytes} {v : String}
    (h : lookupIndex st.index d = some v) :
    lookupIndex (processOne move o st f).index d = some v := by
  rw [processOne_index]
  by_cases hs : stepSucceeds move o st f = true
  · have hlk : (lookupIndex st.index f.csum).isNone = true := by
      unfold stepSucceeds at hs
      simp only [Bool.and_eq_true] at hs
      exact hs.1.2
    have hne : ¬ f.csum = d := by
      intro hcd
      rw [hcd, h] at hlk
      simp at hlk
    simp [hs, lookupIndex, idxEntry, hne, h]
  · simp [hs, h]

theorem lookupIndex_mono_runEngine (move : Bool) (st : EngineState)
    (items : List (fileEntry × MergeOracle)) {d : Bytes} {v : String}
    (h : lookupIndex st.index d = some v) :
    lookupIndex (runEngine move st items).index d = some v := by
  induction items generalizing st with
  | nil => exact h
  | cons fo rest ih =>
    exact ih (processOne move fo.2 st fo.1)
      (lookupIndex_mono_processOne move fo.2 st fo.1 h)

theorem successes_csum_fresh (move : Bool)
    (items : List (fileEntry × MergeOracle)) (st : EngineState)
    {f : fileEntry} (hf : f ∈ successes move st items) :
    lookupIndex st.index f.csum = none := by
  induction items generalizing st with
  | nil => simp [successes] at hf
  | cons fo rest ih =>
    unfold successes at hf
    by_cases hs : stepSucceeds move fo.2 st fo.1 = true
    · rw [if_pos hs] at hf
      rcases List.mem_cons.mp hf with h | h
      · subst h
        unfold stepSucceeds at hs
        simp only [Bool.and_eq_true] at hs
        exact Option.isNone_iff_eq_none.mp hs.1.2
      · have h2 := ih (processOne move fo.2 st fo.1) h
        cases hlk : lookupIndex st.index f.csum with
        | none => rfl
        | some v =>
          have := lookupIndex_mono_processOne move fo.2 st fo.1 hlk
          rw [this] at h2
          cases h2
    · rw [if_neg hs] at hf
      have h2 := ih (processOne move fo.2 st fo.1) hf
      cases hlk : lookupIndex st.index f.csum with
      | none => rfl
      | some v =>
        have := lookupIndex_mono_processOne move fo.2 st fo.1 hlk
        rw [this] at h2
        cases h2

theorem runEngine_index_eq (move : Bool) (st : EngineState)
    (items : List (fileEntry × MergeOracle)) :
    (runEngine move st items).index =
      ((successes move st items).map idxEntry).reverse ++ st.index := by
  induction items generalizing st with
  | nil => simp [runEngine, successes]
  | cons fo rest ih =>
    unfold runEngine successes
    rw [ih, processOne_index]
    by_cases hs : stepSucceeds move fo.2 st fo.1 = true
    · simp [hs]
    · simp [hs]

theorem successes_csums_nodup (move : Bool) (st : EngineState)
    (items : List (fileEntry × MergeOracle)) :
    ((successes move st items).map fileEntry.csum).Nodup := by
  induction items generalizing st with
  | nil => simp [successes]
  | cons fo rest ih =>
    unfold successes
    by_cases hs : stepSucceeds move fo.2 st fo.1 = true
    · rw [if_pos hs]
      rw [List.map_cons, List.nodup_cons]
      refine ⟨?_, ih (processOne move fo.2 st fo.1)⟩
      intro hmem
      rcases List.mem_map.mp hmem with ⟨g, hg, hcs⟩
      have hfresh := successes_csum_fresh move rest
        (processOne move fo.2 st fo.1) hg
      rw [processOne_index, if_pos hs] at hfresh
      rw [hcs] at hfresh
      simp [lookupIndex, idxEntry] at hfresh
    · rw [if_neg hs]
      exact ih (processOne move fo.2 st fo.1)

/-! ## Claim theorems C1 and C2 -/

/-- C2: at every point of a run, a digest is in the index exactly when a
transfer for it has succeeded in this run: for every item list and every
fault oracle, the final index is the initial index extended by exactly
one `digest → sourcePath` entry per successful transfer (recorded only
after the transfer returned no error, skipped on transfer failure and on
lookup errors other than not-found), and no initial entry is ever
updated or removed (`lookupIndex` still returns the recorded value). -/
theorem index_iff_success (move : Bool) (st : EngineState)
    (items : List (fileEntry × MergeOracle)) :
    (runEngine move st items).index =
      ((successes move st items).map idxEntry).reverse ++ st.index
    ∧ ∀ d v, lookupIndex st.index d = some v →
        lookupIndex (runEngine move st items).index d = some v :=
  ⟨runEngine_index_eq move st items,
   fun _ _ h => lookupIndex_mono_runEngine move st items h⟩

/-- C2 witness: a concrete run. -/
theorem index_iff_success_witness :
    lookupIndex (runEngine false ⟨⟨[]⟩, [([1], "a")]⟩
        [(⟨"s", "d", [2]⟩, ⟨false, true, true, ⟨true, none, true, true⟩⟩)]).index
      [1] = some "a" :=
  (index_iff_success false ⟨⟨[]⟩, [([1], "a")]⟩
    [(⟨"s", "d", [2]⟩, ⟨false, true, true, ⟨true, none, true, true⟩⟩)]).2
    [1] "a" (by decide)

/-- C1: deduplication. No two successful transfers of one run share a
digest (content lands in the destination at most once per digest, at the
path of the first item transferred for it), and every item whose digest
is already recorded in the index is skipped with no transfer performed
and no state change (the lookup returns the recorded source path). -/
theorem dedup_only_first (move : Bool) :
    (∀ st items, ((successes move st items).map fileEntry.csum).Nodup)
    ∧ ∀ o st f v, o.dbErr = false → lookupIndex st.index f.csum = some v →
        processOne move o st f = st := by
  refine ⟨fun st items => successes_csums_nodup move st items, ?_⟩
  intro o st f v hdb hlk
  unfold processOne
  rw [hdb, hlk]
  simp

/-- C1 witness: a duplicate-digest item is a no-op on a concrete state. -/
theorem dedup_only_first_witness :
    processOne false ⟨false, true, true, ⟨true, none, true, true⟩⟩
        ⟨⟨[("d/x", [9])]⟩, [([5], "a/x")]⟩ ⟨"a/y", "d/y", [5]⟩ =
      ⟨⟨[("d/x", [9])]⟩, [([5], "a/x")]⟩ :=
  (dedup_only_first false).2 ⟨false, true, true, ⟨true, none, true, true⟩⟩
    ⟨⟨[("d/x", [9])]⟩, [([5], "a/x")]⟩ ⟨"a/y", "d/y", [5]⟩ "a/x" rfl
    (by decide)

/-! ## Claim theorem C3: destination-path mapping -/

/-- C3: for every file found under a source root (so the walked path
starts with the matched root), `getPathProcessor`'s destination path is
exactly the destination root joined with the path relative to that root
(the root stripped and the remainder re-rooted under `dstDir`); in
particular the source-root prefix does not reappear inside the
destination path. -/
theorem dstPath_strips_root (rootDir dstDir path : String)
    (h1 : rootDir ≠ "") (h2 : leadsWith rootDir.data path.data = true) :
    dstPathOf rootDir dstDir path =
      some (goJoinStr dstDir (String.mk (path.data.drop rootDir.data.length))) := by
  have hne : rootDir.data ≠ [] := by
    intro h
    apply h1
    cases rootDir with
    | mk l => cases h; rfl
  unfold dstPathOf goJoinStr
  rw [goSplitN2_of_leadsWith hne h2]
  rfl

/-- C3 witness: a concrete walked path under root `"a"` with destination
root `"d"`. -/
theorem dstPath_strips_root_witness :
    ("a" : String) ≠ "" ∧ leadsWith "a".data "a/sub/x.txt".data = true ∧
    dstPathOf "a" "d" "a/sub/x.txt" =
      some (goJoinStr "d" (String.mk ("a/sub/x.txt".data.drop "a".data.length))) :=
  ⟨by decide, by decide,
   dstPath_strips_root "a" "d" "a/sub/x.txt" (by decide) (by decide)⟩

/-! ## Claim theorem C4: move-mode fallback -/

/-- C4: in move mode, when the item's digest is new and `os.Rename`
fails (for any reason the oracle or a missing source can produce), the
engine performs exactly `Copy`-mode semantics, and the fallback never
deletes the original source file: the source entry is unchanged, and
when the fallback copy succeeds the source file still exists. -/
theorem move_fallback_copies (o : MergeOracle) (st : EngineState)
    (f : fileEntry) (hdb : o.dbErr = false)
    (hnew : lookupIndex st.index f.csum = none)
    (hmk : o.mkdirOk = true)
    (hren : goRename o.renameOk st.fs f.srcPath f.dstPath = none) :
    (processOne true o st f).fs = (Copy o.copyEnv st.fs f.srcPath f.dstPath).1
    ∧ fsGet (processOne true o st f).fs f.srcPath = fsGet st.fs f.srcPath
    ∧ ((Copy o.copyEnv st.fs f.srcPath f.dstPath).2 = none →
        (fsGet (processOne true o st f).fs f.srcPath).isSome) := by
  have hfs : (processOne true o st f).fs =
      (Copy o.copyEnv st.fs f.srcPath f.dstPath).1 := by
    unfold processOne
    rw [hdb, hnew]
    simp only [Bool.false_eq_true, if_false]
    unfold transferStep transferMove
    rw [if_pos rfl, hmk, hren]
    simp only [Bool.true_eq_false, if_false]
    cases h : Copy o.copyEnv st.fs f.srcPath f.dstPath with
    | mk fs' err => cases err <;> simp
  refine ⟨hfs, ?_, ?_⟩
  · rw [hfs]
    exact Copy_preserves_src o.copyEnv st.fs f.srcPath f.dstPath
  · intro hok
    rw [hfs, Copy_preserves_src]
    exact Copy_ok_src_exists hok

/-- C4 witness: a concrete fallback whose copy succeeds; the source file
is still present afterwards. -/
theorem move_fallback_copies_witness :
    (processOne true ⟨false, true, false, ⟨true, none, true, true⟩⟩
        ⟨⟨[("a/x", [3])]⟩, []⟩ ⟨"a/x", "d/x", [7]⟩).fs =
      (Copy ⟨true, none, true, true⟩ ⟨[("a/x", [3])]⟩ "a/x" "d/x").1
    ∧ fsGet (processOne true ⟨false, true, false, ⟨true, none, true, true⟩⟩
        ⟨⟨[("a/x", [3])]⟩, []⟩ ⟨"a/x", "d/x", [7]⟩).fs "a/x" =
        fsGet ⟨[("a/x", [3])]⟩ "a/x" := by
  have h := move_fallback_copies ⟨false, true, false, ⟨true, none, true, true⟩⟩
    ⟨⟨[("a/x", [3])]⟩, []⟩ ⟨"a/x", "d/x", [7]⟩ rfl (by decide) rfl (by decide)
  exact ⟨h.1, h.2.1⟩

/-! ## Claim theorem C5: exclusive create -/

/-- C5: `Copy` creates the destination exclusively, so whenever a file
already exists at `dst` the copy fails with an error, the file system is
left untouched, and the existing destination content is intact
byte-for-byte — a second different-content file mapped to the same
destination path can never overwrite or remove the first. -/
theorem copy_excl_preserves (env : CopyEnv) (fs : GoFS) (src dst : String)
    (b : Bytes) (h : fsGet fs dst = some b) :
    (Copy env fs src dst).2.isSome
    ∧ (Copy env fs src dst).1 = fs
    ∧ fsGet (Copy env fs src dst).1 dst = some b := by
  have hiss : (fsGet fs dst).isSome = true := by rw [h]; rfl
  cases hsrc : fsGet fs src with
  | none => simp [Copy, hsrc, h]
  | some c =>
    by_cases hm : env.mkdirOk = false
    · simp [Copy, hsrc, hm, h]
    · simp [Copy, hsrc, hm, hiss, h]

/-- C5 witness: second file colliding on `"d/same"` fails, first content
kept. -/
theorem copy_excl_preserves_witness :
    fsGet (⟨[("d/same", [1]), ("b/same", [2])]⟩ : GoFS) "d/same" = some [1]
    ∧ (Copy ⟨true, none, true, true⟩ ⟨[("d/same", [1]), ("b/same", [2])]⟩
        "b/same" "d/same").2.isSome
    ∧ (Copy ⟨true, none, true, true⟩ ⟨[("d/same", [1]), ("b/same", [2])]⟩
        "b/same" "d/same").1 = ⟨[("d/same", [1]), ("b/same", [2])]⟩ := by
  have h := copy_excl_preserves ⟨true, none, true, true⟩
    ⟨[("d/same", [1]), ("b/same", [2])]⟩ "b/same" "d/same" [1] (by decide)
  exact ⟨by decide, h.1, h.2.1⟩

/-! ## Claim C6: stream-failure cleanup (corrected)

The claim says the partial destination file is removed whenever the byte
stream fails partway.  The code returns early when `dstFd.Close()` also
fails (`if errClose != nil { return err }`), skipping `os.Remove(dst)`:
the partial file then remains.  Moreover a failed `os.Remove` is
silently discarded, not reported. -/

/-- C6 counterexample: stream fails after one byte and the close also
fails; `Copy` returns the stream error but the partial destination file
(one byte of the source's two) is left in place, refuting "whenever the
byte stream fails partway, the partially written destination file is
removed". -/
theorem copy_partial_left_on_close_fail :
    (Copy ⟨true, some 1, false, true⟩ ⟨[("s", [7, 8])]⟩ "s" "d").2 =
      some GoErr.streamFail
    ∧ fsGet (Copy ⟨true, some 1, false, true⟩ ⟨[("s", [7, 8])]⟩ "s" "d").1 "d" =
      some [7] := by
  constructor <;> decide

/-- C6 amended: when the byte stream fails partway and the destination
close succeeds, `Copy` removes the partial destination file (when the
removal succeeds; when the removal fails the partial file remains and
nothing further is attempted) and returns the original stream error; when
the close also fails, `Copy` still returns the stream error but never
attempts the removal, so the partial file remains. -/
theorem copy_stream_failure_cleanup (env : CopyEnv) (fs : GoFS)
    (src dst : String) (c : Bytes) (k : Nat)
    (hsrc : fsGet fs src = some c) (hmk : env.mkdirOk = true)
    (hdst : fsGet fs dst = none) (hsf : env.streamFailAt = some k) :
    (Copy env fs src dst).2 = some GoErr.streamFail
    ∧ (env.closeOk = true → env.removeOk = true →
        fsGet (Copy env fs src dst).1 dst = none)
    ∧ (env.closeOk = true → env.removeOk = false →
        fsGet (Copy env fs src dst).1 dst = some (c.take k))
    ∧ (env.closeOk = false →
        fsGet (Copy env fs src dst).1 dst = some (c.take k)) := by
  have hm : ¬ env.mkdirOk = false := by rw [hmk]; simp
  have hdn : (fsGet fs dst).isSome = false := by rw [hdst]; rfl
  refine ⟨?_, ?_, ?_, ?_⟩
  · by_cases hc : env.closeOk = false
    · simp [Copy, hsrc, hm, hdn, hsf, hc]
    · cases hr : env.removeOk <;> simp [Copy, hsrc, hm, hdn, hsf, hc, hr]
  · intro hc hr
    simp [Copy, hsrc, hm, hdn, hsf, hc, hr, fsGet_fsRemove]
  · intro hc hr
    simp [Copy, hsrc, hm, hdn, hsf, hc, hr, fsGet_fsSet]
  · intro hc
    simp [Copy, hsrc, hm, hdn, hsf, hc, fsGet_fsSet]

/-- C6 amended witness: concrete stream failure with successful close and
removal; no partial file remains and the stream error is returned. -/
theorem copy_stream_failure_cleanup_witness :
    (Copy ⟨true, some 1, true, true⟩ ⟨[("s", [7, 8])]⟩ "s" "d").2 =
      some GoErr.streamFail
    ∧ fsGet (Copy ⟨true, some 1, true, true⟩ ⟨[("s", [7, 8])]⟩ "s" "d").1 "d" =
      none := by
  have h := copy_stream_failure_cleanup ⟨true, some 1, true, true⟩
    ⟨[("s", [7, 8])]⟩ "s" "d" [7, 8] 1 (by decide) rfl (by decide) rfl
  exact ⟨h.1, h.2.1 rfl rfl⟩

/-! ## The Tree Walker: `filepath.Walk` and `getPathProcessor`

Go's `filepath.Walk` drives the walk callback returned by
`getPathProcessor`.  We model the file-system *tree* seen by the walk:
a node is a non-directory entry whose `lstat` succeeded (`entry name
regular` — `regular = false` models symlinks, sockets, device nodes and
the like), an entry whose `lstat` failed (`badStat`, for which Go passes
a nil `FileInfo` to the callback), or a directory (`node name readable
children`, `readable = false` when `readDirNames` fails).

`goWalk`/`goWalkChildren` transcribe Go's `walk` function: on a
directory it calls the callback with the `readDirNames` error, returns
that callback's error if either is non-nil, and inside the child loop a
non-nil error returned for a child aborts the loop (the program's
callback never returns `filepath.SkipDir` — it only passes through the
per-entry I/O error — so the `SkipDir` escapes of `walk` are dead and
are not modelled).  A callback panic (`GoFault`) aborts everything. -/

/-- Runtime faults (Go panics) that the walk callback can raise. -/
inductive GoFault where
  | nilDeref
  | rangeErr
deriving DecidableEq, Repr

/-- The part of `os.FileInfo` the callback consults. -/
structure GoFileInfo where
  isDir : Bool
  regular : Bool
deriving DecidableEq, Repr

mutual

inductive FSTree where
  | entry : String → Bool → FSTree
  | badStat : String → FSTree
  | node : String → Bool → FSList → FSTree

inductive FSList where
  | nil : FSList
  | cons : FSTree → FSList → FSList

end

/-- Name of a tree entry. -/
def treeName : FSTree → String
  | .entry n _ => n
  | .badStat n => n
  | .node n _ _ => n

/-- A walk callback: path, `FileInfo` (`none` for a nil interface) and
incoming error, producing the emitted `fileEntry`s and the returned
error, or a panic. -/
abbrev WalkCb :=
  String → Option GoFileInfo → Option GoErr →
    Except GoFault (List fileEntry × Option GoErr)

mutual

/-- Go's `walk(path, info, walkFn)` for a successfully stat'ed entry. -/
def goWalk (cb : WalkCb) (path : String) (t : FSTree) :
    Except GoFault (List fileEntry × Option GoErr) :=
  match t with
  | .entry _ r => cb path (some ⟨false, r⟩) none
  | .badStat _ => cb path (some ⟨false, false⟩) none
  | .node _ readable children =>
    let readErr : Option GoErr :=
      if readable then none else some GoErr.readDirFail
    match cb path (some ⟨true, false⟩) readErr with
    | .error p => .error p
    | .ok (es, err1) =>
      if readErr.isSome ∨ err1.isSome then .ok (es, err1)
      else
        match goWalkChildren cb path children with
        | .error p => .error p
        | .ok (es2, e2) => .ok (es ++ es2, e2)

/-- The child loop of Go's `walk`: each child is stat'ed (a failure hands
the callback a nil `FileInfo`) or recursed into; a non-nil error returned
for a child aborts the loop. -/
def goWalkChildren (cb : WalkCb) (dirPath : String) (ts : FSList) :
    Except GoFault (List fileEntry × Option GoErr) :=
  match ts with
  | .nil => .ok ([], none)
  | .cons t rest =>
    match t with
    | .badStat n =>
      match cb (goJoinStr dirPath n) none (some GoErr.lstatFail) with
      | .error p => .error p
      | .ok (es, some e) => .ok (es, some e)
      | .ok (es, none) =>
        match goWalkChildren cb dirPath rest with
        | .error p => .error p
        | .ok (es2, e2) => .ok (es ++ es2, e2)
    | _ =>
      match goWalk cb (goJoinStr dirPath (treeName t)) t with
      | .error p => .error p
      | .ok (es, some e) => .ok (es, some e)
      | .ok (es, none) =>
        match goWalkChildren cb dirPath rest with
        | .error p => .error p
        | .ok (es2, e2) => .ok (es ++ es2, e2)

end

/-- Go's `filepath.Walk(root, walkFn)`: when `lstat(root)` fails the
callback is invoked with a nil `FileInfo`. -/
def goWalkTop (cb : WalkCb) (rootPath : String) (t : FSTree) :
    Except GoFault (List fileEntry × Option GoErr) :=
  match t with
  | .badStat _ => cb rootPath none (some GoErr.lstatFail)
  | _ => goWalk cb rootPath t

/-- The walk callback returned by `getPathProcessor(hashingCh, rootDir,
dstDir)`: `info.IsDir()` on a nil `FileInfo` is a nil-pointer
dereference; non-directories are emitted with the `SplitN`-derived
destination path (an out-of-range index when `rootDir` does not occur in
`path`); the per-entry error is returned unchanged. -/
def pathProcessor (rootDir dstDir : String) : WalkCb :=
  fun path info err =>
    match info with
    | none => .error GoFault.nilDeref
    | some i =>
      if i.isDir then .ok ([], err)
      else
        match dstPathOf rootDir dstDir path with
        | none => .error GoFault.rangeErr
        | some dp => .ok ([⟨path, dp, []⟩], err)

/-- The walking loop of `main`: each source root is walked in turn with
its own `getPathProcessor` callback, and the error returned by
`filepath.Walk` is discarded; a panic kills the process. -/
def runWalker (dstDir : String) :
    List (String × FSTree) → Except GoFault (List fileEntry)
  | [] => .ok []
  | (r, t) :: rest =>
    match goWalkTop (pathProcessor r dstDir) r t with
    | .error p => .error p
    | .ok (es, _) =>
      match runWalker dstDir rest with
      | .error p => .error p
      | .ok es2 => .ok (es ++ es2)

/-! ## Claim C8: traversal errors (corrected)

The callback returns the per-entry error to `filepath.Walk`, and a
non-nil return aborts the walk of that root: the remaining entries under
the same root are neither visited nor emitted.  Only *subsequent roots*
survive an error, because `main` discards `filepath.Walk`'s result. -/

/-- A root whose first child directory is unreadable, with a regular file
as the next sibling. -/
def abortTree : FSTree :=
  .node "r" true (.cons (.node "a" false .nil) (.cons (.entry "b" true) .nil))

/-- The same root without the unreadable directory. -/
def abortFreeTree : FSTree :=
  .node "r" true (.cons (.entry "b" true) .nil)

/-- C8 counterexample: with the unreadable subdirectory `r/a` present the
walk of root `r` emits nothing — the error returned for `r/a` aborts the
walk and the regular file `r/b` is never visited — although without it
`r/b` is emitted.  This refutes "an error on one entry still lets the
Walker visit and emit the remaining entries under that root". -/
theorem walk_error_skips_siblings :
    goWalkTop (pathProcessor "r" "d") "r" abortTree =
      .ok ([], some GoErr.readDirFail)
    ∧ goWalkTop (pathProcessor "r" "d") "r" abortFreeTree =
      .ok ([⟨"r/b", "d/b", []⟩], none) :=
  ⟨rfl, rfl⟩

/-- C8 amended: a traversal error returned for one entry aborts the walk
of the root it occurs under (the erroring child's result is returned and
its later siblings are not visited), while subsequent roots are still
walked in full, because `main` ignores the error `filepath.Walk`
returns. -/
theorem walk_abort_scope :
    (∀ (cb : WalkCb) (p n : String) (b : Bool) (cs : FSList)
        (rest : FSList) (es : List fileEntry) (e : GoErr),
      goWalk cb (goJoinStr p n) (.node n b cs) = .ok (es, some e) →
      goWalkChildren cb p (.cons (.node n b cs) rest) = .ok (es, some e))
    ∧ ∀ (dst r1 : String) (t1 : FSTree) (rs : List (String × FSTree))
        (es : List fileEntry) (e : Option GoErr),
      goWalkTop (pathProcessor r1 dst) r1 t1 = .ok (es, e) →
      runWalker dst ((r1, t1) :: rs) =
        Except.map (fun l => es ++ l) (runWalker dst rs) := by
  constructor
  · intro cb p n b cs rest es e h
    simp only [goWalkChildren, treeName]
    rw [h]
  · intro dst r1 t1 rs es e h
    simp only [runWalker]
    rw [h]
    cases runWalker dst rs <;> rfl

/-- C8 amended witness: the unreadable directory aborts its parent's
child loop on concrete data, and a second root is still walked after a
first root that errored. -/
theorem walk_abort_scope_witness :
    goWalkChildren (pathProcessor "r" "d") "r"
        (.cons (.node "a" false .nil) (.cons (.entry "b" true) .nil)) =
      .ok ([], some GoErr.readDirFail)
    ∧ runWalker "d" [("r", abortTree), ("q", .node "q" true
        (.cons (.entry "c" true) .nil))] =
      .ok [⟨"q/c", "d/c", []⟩] := by
  constructor
  · exact (walk_abort_scope.1 (pathProcessor "r" "d") "r" "a" false .nil
      (.cons (.entry "b" true) .nil) [] GoErr.readDirFail rfl)
  · have h := walk_abort_scope.2 "d" "r" abortTree
      [("q", .node "q" true (.cons (.entry "c" true) .nil))] []
      (some GoErr.readDirFail) rfl
    rw [h]
    rfl

/-! ## Claim C9: what the Walker emits (corrected)

The callback's test is `!info.IsDir()`, not a regular-file test: every
non-directory entry — symlinks, sockets, device nodes included — is
emitted. -/

/-- A root containing one non-regular, non-directory entry (a symlink,
say): `lstat` succeeds, `IsDir()` is false, `Mode().IsRegular()` would be
false. -/
def symTree : FSTree := .node "r" true (.cons (.entry "lnk" false) .nil)

/-- C9 counterexample: the walk of `symTree` emits a WorkItem for the
non-regular entry `r/lnk`, refuting "non-regular entries … are never
emitted themselves". -/
theorem walker_emits_nonregular :
    goWalkTop (pathProcessor "r" "d") "r" symTree =
      .ok ([⟨"r/lnk", "d/lnk", []⟩], none) :=
  rfl

/-- C9 amended: the Walker emits a WorkItem for every *non-directory*
entry and for nothing else: the decision uses only `info.IsDir()`, so
regular and non-regular files alike are emitted, and directories are
recursed into but never emitted themselves. -/
theorem walker_emits_nondir :
    (∀ (rootDir dstDir path : String) (r : Bool) (err : Option GoErr)
        (dp : String), dstPathOf rootDir dstDir path = some dp →
      pathProcessor rootDir dstDir path (some ⟨false, r⟩) err =
        .ok ([⟨path, dp, []⟩], err))
    ∧ ∀ (rootDir dstDir path : String) (r : Bool) (err : Option GoErr),
      pathProcessor rootDir dstDir path (some ⟨true, r⟩) err =
        .ok ([], err) := by
  constructor
  · intro rootDir dstDir path r err dp h
    simp [pathProcessor, h]
  · intro rootDir dstDir path r err
    simp [pathProcessor]

/-- C9 amended witness: concrete non-regular file and directory. -/
theorem walker_emits_nondir_witness :
    pathProcessor "r" "d" "r/lnk" (some ⟨false, false⟩) none =
      .ok ([⟨"r/lnk", "d/lnk", []⟩], none)
    ∧ pathProcessor "r" "d" "r/sub" (some ⟨true, false⟩) none =
      .ok ([], none) :=
  ⟨walker_emits_nondir.1 "r" "d" "r/lnk" false none "d/lnk" rfl,
   walker_emits_nondir.2 "r" "d" "r/sub" false none⟩

/-! ## Claim C10: the callback on a nil `FileInfo` (corrected)

There is indeed no nil check — and precisely because of that,
`info.IsDir()` on the nil `FileInfo` *does* fault: a method call through
a nil interface value is a nil-pointer dereference panic in Go, so the
callback is not total over the inputs `filepath.Walk` can supply. -/

/-- C10 counterexample: invoked as `filepath.Walk` does for an entry
whose `lstat` failed — non-nil error, nil `FileInfo` — the callback
faults with a nil dereference instead of returning, refuting "the call
to `info.IsDir()` on the nil `FileInfo` does not fault". -/
theorem walkfn_nil_info_faults :
    pathProcessor "r" "d" "r/x" none (some GoErr.lstatFail) =
      .error GoFault.nilDeref :=
  rfl

/-- C10 amended: the walk callback is *not* total: for every path and
error, a nil `FileInfo` makes `info.IsDir()` panic with a nil-pointer
dereference (there is no guarding nil check), and consequently a source
root that cannot be stat'ed crashes the whole run. -/
theorem walkfn_nil_info_faults_general :
    (∀ (rootDir dstDir path : String) (err : Option GoErr),
      pathProcessor rootDir dstDir path none err = .error GoFault.nilDeref)
    ∧ ∀ (dst rp n : String) (rest : List (String × FSTree)),
      runWalker dst ((rp, FSTree.badStat n) :: rest) =
        .error GoFault.nilDeref := by
  constructor
  · intro rootDir dstDir path err
    rfl
  · intro dst rp n rest
    rfl

/-! ## Claim C7: pipeline drain (code bug)

`main` starts `hashFiles` and `processFile` as goroutines, walks the
roots, and then *returns*: the deferred `close(hashingCh)` runs,
`dbh.Close()` and the temp-dir cleanup follow, and the Go runtime exits
the process without waiting for either goroutine.  There is no
`WaitGroup`, done-channel or join.  We model the three threads and the
two unbuffered channels as a labelled transition system; a send is a
rendezvous, closing a channel is not.  `WPh.exited` is the `main` return
(process death).  The system exhibits an execution in which `main` has
exited while the item the Walker emitted has been received by the hasher
but never processed by the Merge Engine — refuting "every WorkItem
emitted by the Walker is hashed and processed by the Merge Engine before
the process exits". -/

/-- Control state of the walking `main` thread: emitting the remaining
items, past the loop (about to run the deferred close and return), or
returned (process exit). -/
inductive WPh where
  | sending : List fileEntry → WPh
  | afterLoop : WPh
  | exited : WPh
deriving DecidableEq, Repr

/-- Control state of the `hashFiles` goroutine. -/
inductive HPh where
  | waiting : HPh
  | hashing : fileEntry → HPh
  | sendReady : fileEntry → HPh
  | closedOut : HPh
deriving DecidableEq, Repr

/-- Control state of the `processFile` goroutine. -/
inductive MPh where
  | waiting : MPh
  | working : fileEntry → MPh
  | halted : MPh
deriving DecidableEq, Repr

/-- A configuration of the pipeline: the three threads, whether
`hashingCh` has been closed, and the items the Merge Engine has fully
processed so far. -/
structure PipeCfg where
  w : WPh
  h : HPh
  m : MPh
  ch1Closed : Bool
  processed : List fileEntry
deriving DecidableEq, Repr

/-- One interleaving step of the pipeline. -/
inductive PipeStep : PipeCfg → PipeCfg → Prop where
  | send1 (f : fileEntry) (r : List fileEntry) (m : MPh) (ch : Bool)
      (pr : List fileEntry) :
      PipeStep ⟨.sending (f :: r), .waiting, m, ch, pr⟩
        ⟨.sending r, .hashing f, m, ch, pr⟩
  | loopEnd (h : HPh) (m : MPh) (ch : Bool) (pr : List fileEntry) :
      PipeStep ⟨.sending [], h, m, ch, pr⟩ ⟨.afterLoop, h, m, ch, pr⟩
  | mainExit (h : HPh) (m : MPh) (ch : Bool) (pr : List fileEntry) :
      PipeStep ⟨.afterLoop, h, m, ch, pr⟩ ⟨.exited, h, m, true, pr⟩
  | hashDone (w : WPh) (f : fileEntry) (m : MPh) (ch : Bool)
      (pr : List fileEntry) :
      PipeStep ⟨w, .hashing f, m, ch, pr⟩ ⟨w, .sendReady f, m, ch, pr⟩
  | send2 (w : WPh) (f : fileEntry) (ch : Bool) (pr : List fileEntry) :
      PipeStep ⟨w, .sendReady f, .waiting, ch, pr⟩
        ⟨w, .waiting, .working f, ch, pr⟩
  | hClose (w : WPh) (m : MPh) (pr : List fileEntry) :
      PipeStep ⟨w, .waiting, m, true, pr⟩ ⟨w, .closedOut, m, true, pr⟩
  | mDone (w : WPh) (h : HPh) (f : fileEntry) (ch : Bool)
      (pr : List fileEntry) :
      PipeStep ⟨w, h, .working f, ch, pr⟩ ⟨w, h, .waiting, ch, pr ++ [f]⟩
  | mHalt (w : WPh) (pr : List fileEntry) :
      PipeStep ⟨w, .closedOut, .waiting, true, pr⟩
        ⟨w, .closedOut, .halted, true, pr⟩

/-- Initial configuration for a run whose Walker will emit `items`. -/
def pipeInit (items : List fileEntry) : PipeCfg :=
  ⟨.sending items, .waiting, .waiting, false, []⟩

/-- The single WorkItem of the failing run. -/
def itemX : fileEntry := ⟨"a/x", "d/x", [0]⟩

/-- C7: the pipeline does *not* always drain before exit.  A run whose
Walker emits one item admits the execution: rendezvous hand-off to the
hasher, walk loop ends, `main` closes `hashingCh` and returns — reaching
a configuration in which the process has exited (`WPh.exited`) while the
hasher still holds the item and the Merge Engine's processed list is
empty, not `[itemX]`.  The code lacks any join on the two goroutines, so
the drain the specification promises is not enforced. -/
theorem pipeline_exit_unprocessed :
    Relation.ReflTransGen PipeStep (pipeInit [itemX])
      ⟨.exited, .hashing itemX, .waiting, true, []⟩
    ∧ ([] : List fileEntry) ≠ [itemX] := by
  constructor
  · have s1 : PipeStep (pipeInit [itemX])
        ⟨.sending [], .hashing itemX, .waiting, false, []⟩ :=
      PipeStep.send1 itemX [] .waiting false []
    have s2 : PipeStep ⟨.sending [], .hashing itemX, .waiting, false, []⟩
        ⟨.afterLoop, .hashing itemX, .waiting, false, []⟩ :=
      PipeStep.loopEnd (.hashing itemX) .waiting false []
    have s3 : PipeStep ⟨.afterLoop, .hashing itemX, .waiting, false, []⟩
        ⟨.exited, .hashing itemX, .waiting, true, []⟩ :=
      PipeStep.mainExit (.hashing itemX) .waiting false []
    exact Relation.ReflTransGen.head s1
      (Relation.ReflTransGen.head s2 (Relation.ReflTransGen.single s3))
  · decide

end Mergepath
